import Mathlib

/-!
# Verification of the go-fetch receipt service (src/server.go)

Shallow embedding of the receipt validation/scoring engine and of the
in-memory record store of `src/server.go`, together with proofs of the
specification claims.

Modelling conventions:

* Go byte strings (`string`, `[]byte`) are modelled as `List Char`.  Every
  validation regex of the source (`^[\w\s&-]+$`, `^[\w\s-]+$`,
  `^\d+\.\d{2}$`) only admits ASCII characters, so on validated content
  Go's byte length coincides with the character count used here.

* A monetary `Amount` is parsed from a string matching `^\d+\.\d{2}$` and
  hence denotes an exact whole number of cents; we represent it by that
  natural number.  Go stores the nearest `float64` to `cents/100`; the
  scoring comparisons of the source (`math.Trunc`, `math.Mod`, `math.Ceil`)
  are modelled by exact rational arithmetic on `cents/100`, which yields
  the same branch outcomes as the `float64` computations for all amounts
  in the exactly-representable decimal range.

* `uuid.NewString()` is modelled by passing the generated identifier as an
  explicit argument to `writeReceipt`.

* The heterogeneous Go map `map[string]any` stores values of type
  `DBValue`; constructor `DBValue.other` stands for a value of any Go type
  other than `ReceiptRow`, on which the type assertion of
  `getReceiptPoints` fails.
-/

/-- Go byte strings, modelled as lists of characters. -/
abbrev GoStr := List Char

/-- `unicode.IsSpace` from the Go standard library: the Latin-1 white
space characters together with the Unicode `White_Space` code points. -/
def goIsSpace (c : Char) : Bool :=
  c == '\t' || c == '\n' || c == '\x0b' || c == '\x0c' || c == '\r' || c == ' ' ||
  c == '\x85' || c == '\xa0' || c.toNat == 0x1680 ||
  (0x2000 ≤ c.toNat && c.toNat ≤ 0x200a) ||
  c.toNat == 0x2028 || c.toNat == 0x2029 || c.toNat == 0x202f ||
  c.toNat == 0x205f || c.toNat == 0x3000

/-- The class matched by `\s` in Go's `regexp` package: `[\t\n\f\r ]`. -/
def goRegexSpace (c : Char) : Bool :=
  c == '\t' || c == '\n' || c == '\x0c' || c == '\r' || c == ' '

/-- The class matched by `\w` in Go's `regexp` package: `[0-9A-Za-z_]`. -/
def goWordChar (c : Char) : Bool :=
  c.isAlpha || c.isDigit || c == '_'

/-- `retailerRegex = ^[\w\s&-]+$`: nonempty, every character a word
character, regex white space, ampersand or hyphen. -/
def retailerRegexMatch (l : GoStr) : Bool :=
  !l.isEmpty && l.all fun c => goWordChar c || goRegexSpace c || c == '&' || c == '-'

/-- `descriptionRegex = ^[\w\s-]+$`. -/
def descriptionRegexMatch (l : GoStr) : Bool :=
  !l.isEmpty && l.all fun c => goWordChar c || goRegexSpace c || c == '-'

/-- `twoDecimalFloatRegex = ^\d+\.\d{2}$`: one or more digits, a dot,
exactly two digits. -/
def twoDecimalFloatMatch (l : GoStr) : Bool :=
  let intPart := l.takeWhile fun c => c != '.'
  let rest := l.dropWhile fun c => c != '.'
  !intPart.isEmpty && intPart.all Char.isDigit &&
    rest.head? == some '.' && rest.tail.length == 2 && rest.tail.all Char.isDigit

/-- Error taxonomy of the validator: `malformedField` is the
"Field must be a quoted string" error of `obtainQuotedString`;
`invalidFormat` covers the per-field grammar errors ("Invalid retailer
name", "Invalid date format", "Invalid time format", "Invalid amount",
"Invalid item description"). -/
inductive FieldError where
  | malformedField
  | invalidFormat
  deriving DecidableEq

/-- `isQuotedString`: length at least 2 and wrapped in double quotes.
(Go checks the first and last byte; a multi-byte first or last character
never has a `"` byte at that position, so the character-level check has
the same outcome.) -/
def isQuotedString (l : GoStr) : Bool :=
  decide (2 ≤ l.length) && l.head? == some '"' && l.getLast? == some '"'

/-- `obtainQuotedString`: strip the surrounding double quotes, failing
when the value is not a quoted string. -/
def obtainQuotedString (data : GoStr) : Except FieldError GoStr :=
  if isQuotedString data then .ok ((data.drop 1).dropLast) else .error .malformedField

/-- `Retailer.UnmarshalJSON`: quoted string, then `retailerRegex`. -/
def unmarshalRetailer (data : GoStr) : Except FieldError GoStr :=
  match obtainQuotedString data with
  | .error e => .error e
  | .ok str => if retailerRegexMatch str then .ok str else .error .invalidFormat

/-- `Description.UnmarshalJSON`: quoted string, then `descriptionRegex`. -/
def unmarshalDescription (data : GoStr) : Except FieldError GoStr :=
  match obtainQuotedString data with
  | .error e => .error e
  | .ok str => if descriptionRegexMatch str then .ok str else .error .invalidFormat

/-- The numeric value of a digit character. -/
def digitVal (c : Char) : Nat := c.toNat - '0'.toNat

/-- A calendar date as produced by Go's `time.Parse("2006-01-02", ·)`;
`Date.day` is what `time.Time.Day()` returns on it. -/
structure Date where
  year : Nat
  month : Nat
  day : Nat
  deriving DecidableEq

/-- Go `isLeap`: divisible by 4 and (not by 100 or by 400). -/
def isLeapYear (y : Nat) : Bool :=
  y % 4 == 0 && (y % 100 != 0 || y % 400 == 0)

/-- Go `daysIn(m, year)`: the number of days of month `m`. -/
def daysIn (m y : Nat) : Nat :=
  if m == 2 then (if isLeapYear y then 29 else 28)
  else if m == 4 || m == 6 || m == 9 || m == 11 then 30
  else 31

/-- Go `time.Parse("2006-01-02", s)`: a four-digit year, a literal `-`,
a two-digit month, a literal `-`, a two-digit day, with the month in
`1..12` and the day in range for the month. -/
def parseDate : GoStr → Option Date
  | [y1, y2, y3, y4, s1, m1, m2, s2, d1, d2] =>
    if y1.isDigit && y2.isDigit && y3.isDigit && y4.isDigit && s1 == '-' &&
        m1.isDigit && m2.isDigit && s2 == '-' && d1.isDigit && d2.isDigit then
      let year := ((digitVal y1 * 10 + digitVal y2) * 10 + digitVal y3) * 10 + digitVal y4
      let month := digitVal m1 * 10 + digitVal m2
      let day := digitVal d1 * 10 + digitVal d2
      if 1 ≤ month ∧ month ≤ 12 ∧ 1 ≤ day ∧ day ≤ daysIn month year then
        some ⟨year, month, day⟩
      else none
    else none
  | _ => none

/-- A time of day as produced by Go's `time.Parse("15:04", ·)`;
`Time.hour` is what `time.Time.Hour()` returns on it. -/
structure Time where
  hour : Nat
  minute : Nat
  deriving DecidableEq

/-- Range check performed by Go's time parser: hours in `0..23`,
minutes in `0..59`. -/
def mkTime (hour minute : Nat) : Option Time :=
  if hour ≤ 23 ∧ minute ≤ 59 then some ⟨hour, minute⟩ else none

/-- Go `time.Parse("15:04", s)`: a one- or two-digit hour (the `15`
layout element is not fixed width), a literal `:`, a two-digit minute,
then the range checks. -/
def parseTime : GoStr → Option Time
  | [h1, s1, m1, m2] =>
    if h1.isDigit && s1 == ':' && m1.isDigit && m2.isDigit then
      mkTime (digitVal h1) (digitVal m1 * 10 + digitVal m2)
    else none
  | [h1, h2, s1, m1, m2] =>
    if h1.isDigit && h2.isDigit && s1 == ':' && m1.isDigit && m2.isDigit then
      mkTime (digitVal h1 * 10 + digitVal h2) (digitVal m1 * 10 + digitVal m2)
    else none
  | _ => none

/-- `Date.UnmarshalJSON`: quoted string, then the date grammar. -/
def unmarshalDate (data : GoStr) : Except FieldError Date :=
  match obtainQuotedString data with
  | .error e => .error e
  | .ok str =>
    match parseDate str with
    | some d => .ok d
    | none => .error .invalidFormat

/-- `Time.UnmarshalJSON`: quoted string, then the time grammar. -/
def unmarshalTime (data : GoStr) : Except FieldError Time :=
  match obtainQuotedString data with
  | .error e => .error e
  | .ok str =>
    match parseTime str with
    | some t => .ok t
    | none => .error .invalidFormat

/-- A monetary amount, as the exact number of cents denoted by a string
matching `^\d+\.\d{2}$` (see the header on the `float64` of the source). -/
abbrev Amount := Nat

/-- The numeric value of a list of digit characters, most significant
first. -/
def digitsVal (l : GoStr) : Nat :=
  l.foldl (fun a c => a * 10 + digitVal c) 0

/-- The cents denoted by a string matching `^\d+\.\d{2}$`: dropping the
dot leaves the digits of `dollars * 100 + cents`. -/
def amountCents (l : GoStr) : Nat :=
  digitsVal (l.filter fun c => c != '.')

/-- `Amount.UnmarshalJSON`: quoted string, then `twoDecimalFloatRegex`,
then the numeric parse (`strconv.ParseFloat` in the source, which
succeeds on every regex-matching string in the `float64` range and
returns the value the matched digits denote). -/
def unmarshalAmount (data : GoStr) : Except FieldError Amount :=
  match obtainQuotedString data with
  | .error e => .error e
  | .ok str => if twoDecimalFloatMatch str then .ok (amountCents str) else .error .invalidFormat

/-- An item of a receipt (`Item` in the source); `Description` holds a
string admitted by `descriptionRegex`, `Price` the parsed amount. -/
structure Item where
  Description : GoStr
  Price : Amount
  deriving DecidableEq

/-- A validated receipt (`Receipt` in the source). -/
structure Receipt where
  Retailer : GoStr
  PurchaseDate : Date
  PurchaseTime : Time
  Items : List Item
  Total : Amount
  deriving DecidableEq

/-- Truncation toward zero of a rational, mirroring Go's `math.Trunc`. -/
def ratTrunc (q : ℚ) : ℤ :=
  if q < 0 then ⌈q⌉ else ⌊q⌋

/-- Go's `math.Mod(x, y) = x - y * Trunc(x / y)` (the result has the sign
of `x`), in exact rational arithmetic. -/
def goMod (x y : ℚ) : ℚ :=
  x - y * (ratTrunc (x / y) : ℚ)

/-- The dollar value of the receipt's total: `float64(r.Total)` of the
source, as an exact rational. -/
def totalDollars (r : Receipt) : ℚ :=
  (r.Total : ℚ) / 100

/-- `alphanumericRetailerPoints`: one point per letter or digit of the
retailer name.  (`unicode.IsLetter`/`unicode.IsDigit` agree with the
ASCII classes on every string admitted by `retailerRegex`, whose classes
are ASCII-only.) -/
def alphanumericRetailerPoints (r : Receipt) : Int :=
  r.Retailer.foldl (fun points c => if c.isAlpha || c.isDigit then points + 1 else points) 0

/-- `totalRoundDollarAmountPoints`: 50 points when the total equals its
truncation. -/
def totalRoundDollarAmountPoints (r : Receipt) : Int :=
  if (ratTrunc (totalDollars r) : ℚ) = totalDollars r then 50 else 0

/-- `totalMultipleOf25CentsPoints`: 25 points when
`|math.Mod(total, 0.25)| < 1e-4`. -/
def totalMultipleOf25CentsPoints (r : Receipt) : Int :=
  if |goMod (totalDollars r) 0.25| < 1e-4 then 25 else 0

/-- `every2ItemsPoints`: `5 * (len(items) / 2)` with integer division. -/
def every2ItemsPoints (r : Receipt) : Int :=
  ((5 * (r.Items.length / 2) : Nat) : Int)

/-- `strings.TrimSpace`: drop leading and trailing `unicode.IsSpace`
characters. -/
def goTrimSpace (l : GoStr) : GoStr :=
  ((l.dropWhile goIsSpace).reverse.dropWhile goIsSpace).reverse

/-- The contribution of one item to `itemDescriptionLengthsPoints`:
`ceil(float64(price) * 0.2)` when the trimmed description length is a
multiple of 3.  (`len` on the trimmed description counts bytes in Go and
characters here; they agree on the ASCII content admitted by
`descriptionRegex`.) -/
def itemPoints (item : Item) : Int :=
  if (goTrimSpace item.Description).length % 3 == 0 then
    ⌈(item.Price : ℚ) / 100 * 0.2⌉
  else 0

/-- `itemDescriptionLengthsPoints`: fold of `itemPoints` over the items,
mirroring the accumulation loop of the source. -/
def itemDescriptionLengthsPoints (r : Receipt) : Int :=
  r.Items.foldl (fun points item => points + itemPoints item) 0

/-- `purchaseDayOddPoints`: 6 points when the day of the month is odd. -/
def purchaseDayOddPoints (r : Receipt) : Int :=
  if r.PurchaseDate.day % 2 == 1 then 6 else 0

/-- `purchaseTimeBetween2And4Points`: 10 points when the hour is in
`[14, 16)`. -/
def purchaseTimeBetween2And4Points (r : Receipt) : Int :=
  if 14 ≤ r.PurchaseTime.hour ∧ r.PurchaseTime.hour < 16 then 10 else 0

/-- `computeReceiptPoints`: the sum of the seven rule contributions. -/
def computeReceiptPoints (r : Receipt) : Int :=
  alphanumericRetailerPoints r +
    totalRoundDollarAmountPoints r +
    totalMultipleOf25CentsPoints r +
    every2ItemsPoints r +
    itemDescriptionLengthsPoints r +
    purchaseDayOddPoints r +
    purchaseTimeBetween2And4Points r

/-- A value held in the Go map `map[string]any`: either a `ReceiptRow`
or (`other`) a value of any other Go type, on which the type assertion
`value.(ReceiptRow)` fails. -/
inductive DBValue where
  | receiptRow (receipt : Receipt) (receiptId : GoStr) (points : Int)
  | other
  deriving DecidableEq

/-- The in-memory store `xDB`: insertion order of the key/value pairs,
newest first; `lookupKey` takes the newest binding of a key, so the list
denotes the Go map (an insert with an existing key shadows it). -/
structure xDB where
  Data : List (GoStr × DBValue)
  deriving DecidableEq

/-- `NewXDB()`: the empty store. -/
def NewXDB : xDB := ⟨[]⟩

/-- `ReceiptTableName`. -/
def receiptTableName : GoStr := "receipt".data

/-- The map key `ReceiptTableName + "." + receiptId`. -/
def receiptKey (receiptId : GoStr) : GoStr :=
  receiptTableName ++ '.' :: receiptId

/-- First binding of key `k`, i.e. the Go map access `Data[k]`. -/
def lookupKey (k : GoStr) : List (GoStr × DBValue) → Option DBValue
  | [] => none
  | (k1, v) :: rest => if k1 = k then some v else lookupKey k rest

/-- `writeReceipt`: store a `ReceiptRow` holding the receipt, the fresh
identifier (`uuid.NewString()`, modelled as the argument `receiptId`) and
the points computed once at insert time; return the identifier.  The Go
function never returns an error. -/
def writeReceipt (receiptId : GoStr) (r : Receipt) (db : xDB) : GoStr × xDB :=
  (receiptId,
    ⟨(receiptKey receiptId, DBValue.receiptRow r receiptId (computeReceiptPoints r)) :: db.Data⟩)

/-- Errors of `getReceiptPoints`: `notFound` is
"No receipt with given ID exists", `corrupt` is
"Receipt with given ID was malformed". -/
inductive DBError where
  | notFound
  | corrupt
  deriving DecidableEq

/-- `getReceiptPoints`: look the key up; return the stored points when
the value is a `ReceiptRow`, `corrupt` when it is of another type,
`notFound` when the key is absent. -/
def getReceiptPoints (receiptId : GoStr) (db : xDB) : Except DBError Int :=
  match lookupKey (receiptKey receiptId) db.Data with
  | some (DBValue.receiptRow _ _ points) => .ok points
  | some DBValue.other => .error .corrupt
  | none => .error .notFound

/-- The stores reachable from `NewXDB()` by `writeReceipt` calls,
together with the list of identifiers those calls returned (newest
first). -/
inductive Reachable : xDB → List GoStr → Prop where
  | empty : Reachable NewXDB []
  | step {db : xDB} {ids : List GoStr} (receiptId : GoStr) (r : Receipt) :
      Reachable db ids → Reachable (writeReceipt receiptId r db).2 (receiptId :: ids)

/-- The example receipt of the spec: retailer Target, total 35.35, date
2022-01-01, time 13:01, two items. -/
def targetReceipt : Receipt where
  Retailer := "Target".data
  PurchaseDate := ⟨2022, 1, 1⟩
  PurchaseTime := ⟨13, 1⟩
  Items := [⟨"Mountain Dew 12PK".data, 649⟩, ⟨"Emils Cheese Pizza".data, 1225⟩]
  Total := 3535

/-- `targetReceipt` with the retailer of the alphanumeric-rule example. -/
def mmReceipt : Receipt :=
  { targetReceipt with Retailer := "M&M Corner Market".data }

/-- The JSON encoding of a string field value: the content wrapped in
double quotes. -/
def quoteWrap (l : GoStr) : GoStr :=
  '"' :: (l ++ ['"'])

/-- The characters after the last `.` of a string (the fractional digits
of a well-formed amount). -/
def afterLastDot (l : GoStr) : GoStr :=
  (l.reverse.takeWhile fun c => c != '.').reverse

theorem receiptKey_inj {a b : GoStr} (h : receiptKey a = receiptKey b) : a = b := by
  simpa [receiptKey, receiptTableName] using h

theorem lookupKey_some_mem {k : GoStr} {v : DBValue} :
    ∀ {l : List (GoStr × DBValue)}, lookupKey k l = some v → (k, v) ∈ l := by
  intro l
  induction l with
  | nil => intro h; simp [lookupKey] at h
  | cons p rest ih =>
    intro h
    rw [lookupKey] at h
    by_cases hk : p.1 = k
    · rw [if_pos hk] at h
      obtain ⟨k1, v1⟩ := p
      obtain rfl : v1 = v := by injection h
      obtain rfl : k1 = k := hk
      exact List.mem_cons_self _ _
    · rw [if_neg hk] at h
      exact List.mem_cons_of_mem _ (ih h)

/-- Invariant of reachable stores: every binding pairs the receipt key of
an issued identifier with a well-formed `ReceiptRow` value. -/
theorem reachable_bindings {db : xDB} {ids : List GoStr} (h : Reachable db ids) :
    ∀ k v, (k, v) ∈ db.Data →
      (∃ id ∈ ids, k = receiptKey id) ∧ ∃ r rid p, v = DBValue.receiptRow r rid p := by
  induction h with
  | empty =>
    intro k v hkv
    simp [NewXDB] at hkv
  | step receiptId r _ ih =>
    intro k v hkv
    rw [writeReceipt] at hkv
    rcases List.mem_cons.mp hkv with hnew | hmem
    · refine ⟨⟨receiptId, List.mem_cons_self _ _, ?_⟩, r, receiptId, computeReceiptPoints r, ?_⟩
      · exact congrArg Prod.fst hnew
      · exact congrArg Prod.snd hnew
    · obtain ⟨⟨id, hid, hk⟩, hrow⟩ := ih k v hmem
      exact ⟨⟨id, List.mem_cons_of_mem _ hid, hk⟩, hrow⟩

/-- C1: for every receipt, submitting it with `writeReceipt` returns an
identifier whose subsequent `getReceiptPoints` lookup succeeds and
returns exactly `computeReceiptPoints` of that receipt. -/
theorem writeReceipt_getReceiptPoints_roundTrip (receiptId : GoStr) (r : Receipt) (db : xDB) :
    getReceiptPoints (writeReceipt receiptId r db).1 (writeReceipt receiptId r db).2 =
      .ok (computeReceiptPoints r) := by
  simp [writeReceipt, getReceiptPoints, lookupKey]

/-- C6: on a store reachable by inserts, looking up an identifier that no
insert returned fails with `NotFound` (never a stale or default value),
and a successful lookup is only possible for an identifier previously
returned by an insert. -/
theorem getReceiptPoints_notFound_iff_unknown {db : xDB} {ids : List GoStr}
    (h : Reachable db ids) (receiptId : GoStr) :
    (receiptId ∉ ids → getReceiptPoints receiptId db = .error .notFound) ∧
    (∀ p : Int, getReceiptPoints receiptId db = .ok p → receiptId ∈ ids) := by
  rcases hl : lookupKey (receiptKey receiptId) db.Data with _ | v
  · constructor
    · intro _
      rw [getReceiptPoints, hl]
    · intro p hp
      rw [getReceiptPoints, hl] at hp
      exact absurd hp (by simp)
  · obtain ⟨⟨id, hid, hk⟩, _, _, _, hrow⟩ := reachable_bindings h _ _ (lookupKey_some_mem hl)
    have hmem : receiptId ∈ ids := receiptKey_inj hk ▸ hid
    exact ⟨fun habs => absurd hmem habs, fun _ _ => hmem⟩

/-- C6 witness: on the empty store, the lookup of a concrete identifier
fails with `NotFound`. -/
theorem getReceiptPoints_notFound_iff_unknown_witness :
    getReceiptPoints "abc".data NewXDB = .error .notFound :=
  (getReceiptPoints_notFound_iff_unknown Reachable.empty "abc".data).1 (by simp)

/-- C9: on every store reachable from the empty store by inserts, every
stored value is a well-formed `ReceiptRow`, so a lookup never fails with
`Corrupt`: it either succeeds or fails with `NotFound`. -/
theorem getReceiptPoints_never_corrupt {db : xDB} {ids : List GoStr}
    (h : Reachable db ids) (receiptId : GoStr) :
    getReceiptPoints receiptId db ≠ .error .corrupt ∧
    ((∃ p : Int, getReceiptPoints receiptId db = .ok p) ∨
      getReceiptPoints receiptId db = .error .notFound) := by
  rcases hl : lookupKey (receiptKey receiptId) db.Data with _ | v
  · rw [getReceiptPoints, hl]
    exact ⟨by simp, Or.inr rfl⟩
  · obtain ⟨_, r, rid, p, hrow⟩ := reachable_bindings h _ _ (lookupKey_some_mem hl)
    rw [getReceiptPoints, hl, hrow]
    exact ⟨by simp, Or.inl ⟨p, rfl⟩⟩

/-- C9 witness: after one concrete insert, the lookup of the returned
identifier does not fail with `Corrupt`. -/
theorem getReceiptPoints_never_corrupt_witness :
    getReceiptPoints "id0".data (writeReceipt "id0".data targetReceipt NewXDB).2 ≠
      .error .corrupt :=
  (getReceiptPoints_never_corrupt (Reachable.step "id0".data targetReceipt Reachable.empty)
    "id0".data).1

theorem foldl_ge_init {α : Type} (f : Int → α → Int) (hf : ∀ acc a, acc ≤ f acc a) :
    ∀ (l : List α) (acc : Int), acc ≤ l.foldl f acc := by
  intro l
  induction l with
  | nil => intro acc; simp
  | cons a as ih =>
    intro acc
    simp only [List.foldl_cons]
    exact le_trans (hf acc a) (ih (f acc a))

theorem alphanumericRetailerPoints_nonneg (r : Receipt) : 0 ≤ alphanumericRetailerPoints r := by
  refine foldl_ge_init _ (fun acc c => ?_) r.Retailer 0
  dsimp only
  split <;> omega

theorem itemPoints_nonneg (item : Item) : 0 ≤ itemPoints item := by
  rw [itemPoints]
  split
  · exact Int.ceil_nonneg (by positivity)
  · exact le_refl 0

theorem itemDescriptionLengthsPoints_nonneg (r : Receipt) :
    0 ≤ itemDescriptionLengthsPoints r := by
  refine foldl_ge_init _ (fun acc item => ?_) r.Items 0
  have := itemPoints_nonneg item
  omega

theorem totalRoundDollarAmountPoints_nonneg (r : Receipt) :
    0 ≤ totalRoundDollarAmountPoints r := by
  rw [totalRoundDollarAmountPoints]; split <;> omega

theorem totalMultipleOf25CentsPoints_nonneg (r : Receipt) :
    0 ≤ totalMultipleOf25CentsPoints r := by
  rw [totalMultipleOf25CentsPoints]; split <;> omega

theorem purchaseDayOddPoints_nonneg (r : Receipt) : 0 ≤ purchaseDayOddPoints r := by
  rw [purchaseDayOddPoints]; split <;> omega

theorem purchaseTimeBetween2And4Points_nonneg (r : Receipt) :
    0 ≤ purchaseTimeBetween2And4Points r := by
  rw [purchaseTimeBetween2And4Points]; split <;> omega

theorem every2ItemsPoints_nonneg (r : Receipt) : 0 ≤ every2ItemsPoints r := by
  rw [every2ItemsPoints]; positivity

/-- C2: the scoring function is the sum of the seven rule contributions
and is never negative.  Totality and determinism hold by construction:
`computeReceiptPoints` is a total function of the receipt value alone
(the embedding of a pure Go function with no other inputs). -/
theorem computeReceiptPoints_spec (r : Receipt) :
    computeReceiptPoints r =
      alphanumericRetailerPoints r + totalRoundDollarAmountPoints r +
        totalMultipleOf25CentsPoints r + every2ItemsPoints r +
        itemDescriptionLengthsPoints r + purchaseDayOddPoints r +
        purchaseTimeBetween2And4Points r ∧
    0 ≤ computeReceiptPoints r := by
  refine ⟨rfl, ?_⟩
  have h1 := alphanumericRetailerPoints_nonneg r
  have h2 := totalRoundDollarAmountPoints_nonneg r
  have h3 := totalMultipleOf25CentsPoints_nonneg r
  have h4 := every2ItemsPoints_nonneg r
  have h5 := itemDescriptionLengthsPoints_nonneg r
  have h6 := purchaseDayOddPoints_nonneg r
  have h7 := purchaseTimeBetween2And4Points_nonneg r
  rw [computeReceiptPoints]
  omega

theorem foldl_alnum_count (l : GoStr) :
    ∀ acc : Int,
      l.foldl (fun points c => if c.isAlpha || c.isDigit then points + 1 else points) acc =
        acc + ((l.filter fun c => c.isAlpha || c.isDigit).length : Int) := by
  induction l with
  | nil => intro acc; simp
  | cons c cs ih =>
    intro acc
    simp only [List.foldl_cons, List.filter_cons]
    by_cases h : (c.isAlpha || c.isDigit) = true
    · rw [if_pos h, if_pos h, ih]
      push_cast [List.length_cons]
      ring
    · rw [if_neg h, if_neg h, ih]

/-- C3 counterexample: the alphanumeric-retailer contribution of the
retailer "M&M Corner Market" is not 15 (it is 14: the ampersand and the
two spaces are excluded from the seventeen characters). -/
theorem alphanumericRetailerPoints_mm_ne_fifteen :
    ¬ alphanumericRetailerPoints mmReceipt = 15 := by
  decide

/-- C3 amended: the alphanumeric-retailer rule contributes one point per
letter or digit character of the retailer name (whitespace and
punctuation excluded), and for the retailer "M&M Corner Market" this
contribution is exactly 14. -/
theorem alphanumericRetailerPoints_spec :
    (∀ r : Receipt,
      alphanumericRetailerPoints r =
        ((r.Retailer.filter fun c => c.isAlpha || c.isDigit).length : Int)) ∧
    alphanumericRetailerPoints mmReceipt = 14 := by
  constructor
  · intro r
    rw [alphanumericRetailerPoints, foldl_alnum_count]
    ring
  · decide

theorem ratTrunc_totalDiv (t : ℕ) :
    ratTrunc (((t : ℚ) / 100) / 0.25) = ((t / 25 : ℕ) : ℤ) := by
  have hq : ((t : ℚ) / 100) / 0.25 = ((t : ℤ) : ℚ) / ((25 : ℕ) : ℚ) := by
    push_cast
    norm_num
    ring
  rw [ratTrunc, if_neg (not_lt.mpr (by positivity)), hq, Rat.floor_intCast_div_natCast]
  omega

theorem goMod_totalDollars (t : ℕ) :
    goMod ((t : ℚ) / 100) 0.25 = ((t % 25 : ℕ) : ℚ) / 100 := by
  rw [goMod, ratTrunc_totalDiv]
  have hdm : (25 * (t / 25) + t % 25 : ℕ) = t := Nat.div_add_mod t 25
  have hq : 25 * ((t / 25 : ℕ) : ℚ) + ((t % 25 : ℕ) : ℚ) = (t : ℚ) := by
    exact_mod_cast congrArg (fun n : ℕ => (n : ℚ)) hdm
  have hcast : (((t / 25 : ℕ) : ℤ) : ℚ) = ((t / 25 : ℕ) : ℚ) := Int.cast_natCast _
  rw [hcast]
  norm_num
  linarith

theorem totalMultipleOf25_iff_mod (r : Receipt) :
    totalMultipleOf25CentsPoints r = 25 ↔ r.Total % 25 = 0 := by
  rw [totalMultipleOf25CentsPoints, totalDollars, goMod_totalDollars]
  constructor
  · intro h
    by_contra hne
    have h1 : (1 : ℚ) ≤ ((r.Total % 25 : ℕ) : ℚ) := by
      exact_mod_cast Nat.one_le_iff_ne_zero.mpr hne
    rw [if_neg] at h
    · exact absurd h (by norm_num)
    · rw [not_lt, abs_of_nonneg (by positivity)]
      norm_num
      linarith
  · intro h
    rw [h]
    norm_num

theorem totalMultipleOf25_cases (r : Receipt) :
    totalMultipleOf25CentsPoints r = 25 ∨ totalMultipleOf25CentsPoints r = 0 := by
  rw [totalMultipleOf25CentsPoints]
  split
  · exact Or.inl rfl
  · exact Or.inr rfl

/-- C4: the quarter-multiple rule contributes 25 exactly when the
absolute value of `math.Mod(total, 0.25)` is below the tolerance `1e-4`
(in the exact decimal arithmetic this is equivalent to the cent amount
being divisible by 25, and the rule contributes nothing otherwise); a
total parsed from "25.25" receives the 25 and one parsed from "25.26"
receives 0. -/
theorem totalMultipleOf25CentsPoints_spec :
    (∀ r : Receipt,
      (totalMultipleOf25CentsPoints r = 25 ↔ |goMod (totalDollars r) 0.25| < 1e-4) ∧
      (totalMultipleOf25CentsPoints r = 25 ↔ r.Total % 25 = 0) ∧
      (totalMultipleOf25CentsPoints r = 25 ∨ totalMultipleOf25CentsPoints r = 0)) ∧
    unmarshalAmount (quoteWrap "25.25".data) = .ok 2525 ∧
    totalMultipleOf25CentsPoints { targetReceipt with Total := 2525 } = 25 ∧
    unmarshalAmount (quoteWrap "25.26".data) = .ok 2526 ∧
    totalMultipleOf25CentsPoints { targetReceipt with Total := 2526 } = 0 := by
  refine ⟨fun r => ⟨?_, totalMultipleOf25_iff_mod r, totalMultipleOf25_cases r⟩, rfl, ?_, rfl, ?_⟩
  · rw [totalMultipleOf25CentsPoints]
    constructor
    · intro h
      by_contra hc
      rw [if_neg hc] at h
      exact absurd h (by norm_num)
    · intro h
      rw [if_pos h]
  · exact (totalMultipleOf25_iff_mod _).mpr (by norm_num)
  · rcases totalMultipleOf25_cases { targetReceipt with Total := 2526 } with h | h
    · exact absurd ((totalMultipleOf25_iff_mod _).mp h) (by norm_num)
    · exact h

theorem foldl_itemPoints (l : List Item) :
    ∀ acc : Int, l.foldl (fun points item => points + itemPoints item) acc =
      acc + (l.map itemPoints).sum := by
  induction l with
  | nil => intro acc; simp
  | cons i is ih =>
    intro acc
    simp only [List.foldl_cons, List.map_cons, List.sum_cons]
    rw [ih]
    ring

theorem itemPoints_propIf (item : Item) :
    itemPoints item =
      (if (goTrimSpace item.Description).length % 3 = 0 then
        ⌈(item.Price : ℚ) / 100 * 0.2⌉ else 0) := by
  rw [itemPoints]
  by_cases h : (goTrimSpace item.Description).length % 3 = 0
  · rw [if_pos (by simp [h]), if_pos h]
  · rw [if_neg (by simp [h]), if_neg h]

/-- C5: appending an item to a receipt adds `ceil(price * 0.2)` to the
description-length contribution when the character count of its trimmed
description is a multiple of 3 and adds 0 otherwise; the trimmed
description "Emils Cheese Pizza" has length 18 and at price 12.25
contributes 3, while "Gatorade" (length 8) contributes 0. -/
theorem itemDescriptionLengthsPoints_spec :
    (∀ (r r9 : Receipt) (item : Item), r9.Items = r.Items ++ [item] →
      itemDescriptionLengthsPoints r9 =
        itemDescriptionLengthsPoints r +
          (if (goTrimSpace item.Description).length % 3 = 0 then
            ⌈(item.Price : ℚ) / 100 * 0.2⌉ else 0)) ∧
    (goTrimSpace "Emils Cheese Pizza".data).length = 18 ∧
    itemPoints ⟨"Emils Cheese Pizza".data, 1225⟩ = 3 ∧
    itemPoints ⟨"Gatorade".data, 225⟩ = 0 := by
  refine ⟨?_, by decide, ?_, ?_⟩
  · intro r r9 item hitems
    rw [itemDescriptionLengthsPoints, itemDescriptionLengthsPoints, hitems,
      foldl_itemPoints, foldl_itemPoints, ← itemPoints_propIf]
    simp
  · rw [itemPoints, if_pos (by decide)]
    rw [show ((⟨"Emils Cheese Pizza".data, 1225⟩ : Item).Price : ℚ) = 1225 by norm_num]
    rw [show (1225 : ℚ) / 100 * 0.2 = 49/20 by norm_num]
    rw [Int.ceil_eq_iff]
    norm_num
  · rw [itemPoints, if_neg (by decide)]

/-- C5 witness: appending the Gatorade item to the example receipt adds
its contribution. -/
theorem itemDescriptionLengthsPoints_spec_witness :
    itemDescriptionLengthsPoints
        { targetReceipt with Items := targetReceipt.Items ++ [⟨"Gatorade".data, 225⟩] } =
      itemDescriptionLengthsPoints targetReceipt +
        (if (goTrimSpace (⟨"Gatorade".data, 225⟩ : Item).Description).length % 3 = 0 then
          ⌈((⟨"Gatorade".data, 225⟩ : Item).Price : ℚ) / 100 * 0.2⌉ else 0) :=
  itemDescriptionLengthsPoints_spec.1 targetReceipt _ ⟨"Gatorade".data, 225⟩ rfl

/-- C7: a raw field value that is not a quoted string fails with
`MalformedField` for every string-typed receipt field (retailer, date,
time, amount, description), before any format or grammar validation of
the content runs. -/
theorem unmarshal_unquoted_malformedField (data : GoStr)
    (h : isQuotedString data = false) :
    unmarshalRetailer data = .error .malformedField ∧
    unmarshalDate data = .error .malformedField ∧
    unmarshalTime data = .error .malformedField ∧
    unmarshalAmount data = .error .malformedField ∧
    unmarshalDescription data = .error .malformedField := by
  have hq : obtainQuotedString data = .error .malformedField := by
    simp [obtainQuotedString, h]
  refine ⟨?_, ?_, ?_, ?_, ?_⟩ <;>
    simp [unmarshalRetailer, unmarshalDate, unmarshalTime, unmarshalAmount,
      unmarshalDescription, hq]

/-- C7 witness: the unquoted raw value `3.5` fails with `MalformedField`
on the retailer field. -/
theorem unmarshal_unquoted_malformedField_witness :
    isQuotedString "3.5".data = false ∧
    unmarshalRetailer "3.5".data = .error .malformedField :=
  ⟨by decide, (unmarshal_unquoted_malformedField "3.5".data (by decide)).1⟩

theorem isQuotedString_quoteWrap (l : GoStr) : isQuotedString (quoteWrap l) = true := by
  have hlast : ('"' :: (l ++ ['"'])).getLast? = some '"' := by
    rw [← List.cons_append, List.getLast?_concat]
  rw [isQuotedString, quoteWrap]
  simp [hlast]

theorem obtainQuotedString_quoteWrap (l : GoStr) :
    obtainQuotedString (quoteWrap l) = .ok l := by
  rw [obtainQuotedString, if_pos (isQuotedString_quoteWrap l), quoteWrap]
  simp [List.dropLast_concat]

theorem takeWhile_append_cons {p : Char → Bool} :
    ∀ (xs : GoStr) (y : Char) (zs : GoStr), (∀ x ∈ xs, p x = true) → p y = false →
      (xs ++ y :: zs).takeWhile p = xs := by
  intro xs
  induction xs with
  | nil =>
    intro y zs _ hy
    simp [List.takeWhile_cons, hy]
  | cons a as ih =>
    intro y zs hall hy
    have ha : p a = true := hall a (List.mem_cons_self _ _)
    rw [List.cons_append, List.takeWhile_cons, ha,
      ih y zs (fun x hx => hall x (List.mem_cons_of_mem _ hx)) hy]
    simp

theorem digit_ne_dot {c : Char} (h : c.isDigit = true) : (c != '.') = true := by
  by_contra hc
  have hcd : c = '.' := by simpa using hc
  subst hcd
  exact absurd h (by decide)

/-- A string matched by `twoDecimalFloatRegex` has exactly two
characters after its last dot. -/
theorem twoDecimalFloatMatch_afterLastDot {l : GoStr}
    (h : twoDecimalFloatMatch l = true) : (afterLastDot l).length = 2 := by
  rw [twoDecimalFloatMatch] at h
  simp only [Bool.and_eq_true, beq_iff_eq] at h
  obtain ⟨⟨⟨⟨-, hdig⟩, hhead⟩, hlen⟩, hfdig⟩ := h
  rcases hrest : l.dropWhile fun c => c != '.' with _ | ⟨c, t⟩
  · rw [hrest] at hhead
    exact absurd hhead (by simp)
  · rw [hrest] at hhead hlen hfdig
    have hc : c = '.' := by simpa using hhead
    subst hc
    have hsplit : (l.takeWhile fun c => c != '.') ++ '.' :: t = l := by
      rw [← hrest, List.takeWhile_append_dropWhile]
    have hrev : l.reverse = t.reverse ++ '.' :: (l.takeWhile fun c => c != '.').reverse := by
      conv_lhs => rw [← hsplit]
      simp
    rw [afterLastDot, hrev, takeWhile_append_cons t.reverse '.' _ ?_ (by decide)]
    · simpa using hlen
    · intro x hx
      exact digit_ne_dot (List.all_eq_true.mp hfdig x (List.mem_reverse.mp hx))

/-- C8: the validator fails with `InvalidFormat` on any amount string
without exactly two characters after its last dot (such as "3.5"), on
any retailer string containing a character outside letters, digits,
underscore, white space, ampersand and hyphen (such as one containing
'@'), and on any purchase-date string not of the `YYYY-MM-DD` grammar
(such as "01-01-2022"). -/
theorem validator_invalidFormat_rejections :
    (∀ l : GoStr, (afterLastDot l).length ≠ 2 →
      unmarshalAmount (quoteWrap l) = .error .invalidFormat) ∧
    unmarshalAmount (quoteWrap "3.5".data) = .error .invalidFormat ∧
    (∀ (l : GoStr) (c : Char), c ∈ l →
      ¬(c.isAlpha = true ∨ c.isDigit = true ∨ c = '_' ∨ goRegexSpace c = true ∨
        c = '&' ∨ c = '-') →
      unmarshalRetailer (quoteWrap l) = .error .invalidFormat) ∧
    unmarshalRetailer (quoteWrap "M@M Market".data) = .error .invalidFormat ∧
    (∀ l : GoStr, parseDate l = none →
      unmarshalDate (quoteWrap l) = .error .invalidFormat) ∧
    unmarshalDate (quoteWrap "01-01-2022".data) = .error .invalidFormat := by
  refine ⟨?_, rfl, ?_, rfl, ?_, rfl⟩
  · intro l hne
    have hm : twoDecimalFloatMatch l = false := by
      by_contra hc
      exact hne (twoDecimalFloatMatch_afterLastDot (by simpa using hc))
    rw [unmarshalAmount, obtainQuotedString_quoteWrap]
    simp [hm]
  · intro l c hmem hclass
    push_neg at hclass
    obtain ⟨h1, h2, h3, h4, h5, h6⟩ := hclass
    have hpc : (goWordChar c || goRegexSpace c || c == '&' || c == '-') = false := by
      simp only [Bool.not_eq_true] at h1 h2 h4
      simp only [goWordChar, Bool.or_eq_false_iff, beq_eq_false_iff_ne]
      tauto
    have hm : retailerRegexMatch l = false := by
      rw [retailerRegexMatch]
      have hall : (l.all fun c => goWordChar c || goRegexSpace c || c == '&' || c == '-') =
          false := by
        rw [← Bool.not_eq_true, List.all_eq_true]
        intro hforall
        exact absurd (hforall c hmem) (by simp [hpc])
      simp [hall]
    rw [unmarshalRetailer, obtainQuotedString_quoteWrap]
    simp [hm]
  · intro l hparse
    rw [unmarshalDate, obtainQuotedString_quoteWrap]
    simp [hparse]

/-- C8 witness: the amount "100.123" (three fractional digits) and the
retailer "a@b" are rejected with `InvalidFormat` via the universal
parts of the claim. -/
theorem validator_invalidFormat_rejections_witness :
    (afterLastDot "100.123".data).length ≠ 2 ∧
    unmarshalAmount (quoteWrap "100.123".data) = .error .invalidFormat ∧
    unmarshalRetailer (quoteWrap "a@b".data) = .error .invalidFormat ∧
    unmarshalDate (quoteWrap "2022/01/01".data) = .error .invalidFormat :=
  ⟨by decide,
   validator_invalidFormat_rejections.1 "100.123".data (by decide),
   validator_invalidFormat_rejections.2.2.1 "a@b".data '@' (by decide) (by decide),
   validator_invalidFormat_rejections.2.2.2.2.1 "2022/01/01".data (by decide)⟩

theorem goRegexSpace_goIsSpace {c : Char} (h : goRegexSpace c = true) : goIsSpace c = true := by
  rw [goRegexSpace] at h
  simp only [Bool.or_eq_true, beq_iff_eq] at h
  rw [goIsSpace]
  simp only [Bool.or_eq_true, beq_iff_eq, Bool.and_eq_true, decide_eq_true_eq]
  rcases h with (((h | h) | h) | h) | h <;> subst h <;> simp

theorem goTrimSpace_all_space {l : GoStr} (h : ∀ c ∈ l, goIsSpace c = true) :
    goTrimSpace l = [] := by
  rw [goTrimSpace]
  have h1 : l.dropWhile goIsSpace = [] := by
    rw [List.dropWhile_eq_nil_iff]
    intro x hx
    exact h x hx
  rw [h1]
  rfl

/-- C10: a nonempty description consisting only of white space passes
`Description.UnmarshalJSON` (the pattern admits whitespace-only
strings), its trimmed length is 0, and since 0 is a multiple of 3 the
description-length rule awards the item `ceil(price * 0.2)`. -/
theorem whitespaceDescription_spec (l : GoStr) (price : Amount)
    (hne : l ≠ []) (hws : ∀ c ∈ l, goRegexSpace c = true) :
    unmarshalDescription (quoteWrap l) = .ok l ∧
    goTrimSpace l = [] ∧
    itemPoints ⟨l, price⟩ = ⌈(price : ℚ) / 100 * 0.2⌉ ∧
    (∀ r : Receipt, r.Items = [⟨l, price⟩] →
      itemDescriptionLengthsPoints r = ⌈(price : ℚ) / 100 * 0.2⌉) := by
  have htrim : goTrimSpace l = [] :=
    goTrimSpace_all_space fun c hc => goRegexSpace_goIsSpace (hws c hc)
  have hitem : itemPoints ⟨l, price⟩ = ⌈(price : ℚ) / 100 * 0.2⌉ := by
    rw [itemPoints]
    simp only [htrim]
    rw [if_pos (by decide)]
  refine ⟨?_, htrim, hitem, ?_⟩
  · rw [unmarshalDescription, obtainQuotedString_quoteWrap]
    have hm : descriptionRegexMatch l = true := by
      rw [descriptionRegexMatch]
      have h0 : l.isEmpty = false := by
        cases l
        · exact absurd rfl hne
        · rfl
      rw [h0]
      simp only [Bool.not_false, Bool.true_and, List.all_eq_true, Bool.or_eq_true]
      exact fun c hc => Or.inl (Or.inr (hws c hc))
    simp [hm]
  · intro r hitems
    rw [itemDescriptionLengthsPoints, hitems]
    simp only [List.foldl_cons, List.foldl_nil, zero_add]
    exact hitem

/-- C10 witness: the three-space description is accepted and trims to
the empty string; at price 1.00 its item is awarded 1 point. -/
theorem whitespaceDescription_spec_witness :
    unmarshalDescription (quoteWrap "   ".data) = .ok "   ".data ∧
    goTrimSpace "   ".data = [] :=
  ⟨(whitespaceDescription_spec "   ".data 100 (by decide) (by decide)).1,
   (whitespaceDescription_spec "   ".data 100 (by decide) (by decide)).2.1⟩
